import Mathlib

/-!
Slasher detection types: the span and detection-result encodings.

A shallow embedding of `slasher/detection/attestations/types/types.go`.
Go's fixed-width unsigned integers are natural numbers below `2 ^ w`
(`Fin (2 ^ w)`); every conversion that can drop bits is an explicit
reduction modulo `2 ^ w`.  A `[]byte` is a list of bytes and a `[2]byte`
a pair of bytes.  A Go result `(Span, error)` is a pair whose second
component is `none` for a `nil` error.
-/

namespace Prysm

/-- A Go `byte` / `uint8`. -/
abbrev Byte := Fin 256

/-- A Go `uint16`. -/
abbrev Uint16 := Fin 65536

/-- A Go `uint64`. -/
abbrev Uint64 := Fin 18446744073709551616

/-- The conversion `byte(n)` (also `uint8(n)`): the low eight bits of `n`. -/
def toByte (n : Nat) : Byte := ⟨n % 256, Nat.mod_lt n (by decide)⟩

/-- The conversion `uint16(n)`, also the wrap-around of `uint16` arithmetic. -/
def toUint16 (n : Nat) : Uint16 := ⟨n % 65536, Nat.mod_lt n (by decide)⟩

/-- The conversion `uint64(n)`, also the wrap-around of `uint64` arithmetic. -/
def toUint64 (n : Nat) : Uint64 := ⟨n % 18446744073709551616, Nat.mod_lt n (by decide)⟩

/-- `type Span struct`: the structure used for detecting surround and double votes. -/
structure Span where
  MinSpan : Uint16
  MaxSpan : Uint16
  SigBytes : Byte × Byte
  HasAttested : Bool
deriving DecidableEq, Repr

/-- `var SpannerEncodedLength = uint64(7)`. -/
def SpannerEncodedLength : Uint64 := toUint64 7

/-- The error value of `errors.New("wrong data length for min max span")`. -/
def errWrongLength : String := "wrong data length for min max span"

/-- `func UnmarshalSpan(enc []byte) (Span, error)`: a span from an encoded,
flattened byte array.  The first component is the returned `Span`, the second
the returned `error` (`none` is `nil`). -/
def UnmarshalSpan (enc : List Byte) : Span × Option String :=
  let r : Span := { MinSpan := 0, MaxSpan := 0, SigBytes := (0, 0), HasAttested := false }
  if h : enc.length ≠ SpannerEncodedLength.val then
    (r, some errWrongLength)
  else
    have hlen : enc.length = 7 := by
      have h7 : SpannerEncodedLength.val = 7 := by decide
      omega
    let minSpan : Uint16 :=
      toUint16 ((toUint16 enc[0].val).val ||| (toUint16 ((toUint16 enc[1].val).val <<< 8)).val)
    let r : Span := { r with MinSpan := minSpan }
    let maxSpan : Uint16 :=
      toUint16 ((toUint16 enc[2].val).val ||| (toUint16 ((toUint16 enc[3].val).val <<< 8)).val)
    let r : Span := { r with MaxSpan := maxSpan }
    let sigB : Byte × Byte := (0, 0)
    let sigB : Byte × Byte := (enc[4], enc[5])
    let r := { r with SigBytes := sigB }
    let r := { r with HasAttested := decide ((enc[6]).val &&& 1 = 1) }
    (r, none)

/-- `func (span Span) Marshal() []byte`: the span as a flattened byte array. -/
def Span.Marshal (span : Span) : List Byte :=
  let attested : Byte := 0
  let attested : Byte := if span.HasAttested then 1 else attested
  [ toByte span.MinSpan.val,
    toByte (span.MinSpan.val >>> 8),
    toByte span.MaxSpan.val,
    toByte (span.MaxSpan.val >>> 8),
    span.SigBytes.1,
    span.SigBytes.2,
    attested ]

/-- `type DetectionKind uint8`: the kind of slashable offense found when
analyzing validator min-max spans. -/
abbrev DetectionKind := Byte

/-- `DoubleVote DetectionKind = iota`: two conflicting attestations within the
same target epoch. -/
def DoubleVote : DetectionKind := 0

/-- `SurroundVote`: the next constant of the `iota` block. -/
def SurroundVote : DetectionKind := 1

/-- `type DetectionResult struct`: the kind of slashable offense, the slashable
epoch and the signature bytes of the attestation. -/
structure DetectionResult where
  ValidatorIndex : Uint64
  SlashableEpoch : Uint64
  Kind : DetectionKind
  SigBytes : Byte × Byte
deriving DecidableEq, Repr

/-- Go's `binary.LittleEndian.PutUint64(b, v)`: the first eight bytes of `b`
become `byte(v), byte(v >> 8), ..., byte(v >> 56)`, the rest of `b` stays. -/
def PutUint64 (b : List Byte) (v : Uint64) : List Byte :=
  [ toByte v.val,
    toByte (v.val >>> 8),
    toByte (v.val >>> 16),
    toByte (v.val >>> 24),
    toByte (v.val >>> 32),
    toByte (v.val >>> 40),
    toByte (v.val >>> 48),
    toByte (v.val >>> 56) ] ++ b.drop 8

/-- Modelled from the spec: `bytesutil.ToBytes` of package `shared/bytesutil`,
which `DetectionResult.Marshal` calls and which is not among the sources.  The
spec gives the helper no definition of its own; it is taken here as documented
in its package, "ToBytes returns integer x to bytes in little-endian format at
the specified length": a buffer of `max length 8` zero bytes receives `x` by
`binary.LittleEndian.PutUint64` and its first `length` bytes are returned. -/
def ToBytes (x : Uint64) (length : Nat) : List Byte :=
  let makeLength := if length < 8 then 8 else length
  let bytes : List Byte := List.replicate makeLength 0
  let bytes := PutUint64 bytes x
  bytes.take length

/-- The big-endian 8-byte unsigned integer in the words of the specification
(section 4.4: "`slashable_epoch` big-endian 8-byte integer"): the most
significant byte first, the least significant byte last.  It is not part of the
code; the encoding of the code is compared with it. -/
def bigEndian8 (x : Uint64) : List Byte :=
  [ toByte (x.val >>> 56),
    toByte (x.val >>> 48),
    toByte (x.val >>> 40),
    toByte (x.val >>> 32),
    toByte (x.val >>> 24),
    toByte (x.val >>> 16),
    toByte (x.val >>> 8),
    toByte x.val ]

/-- `func (result *DetectionResult) Marshal() []byte`: the result as bytes,
used for removing duplicates. -/
def DetectionResult.Marshal (result : DetectionResult) : List Byte :=
  let numBytes := ToBytes result.SlashableEpoch 8
  let resultBytes : List Byte := []
  let resultBytes := resultBytes ++ [toByte result.Kind.val]
  let resultBytes := resultBytes ++ [result.SigBytes.1, result.SigBytes.2]
  let resultBytes := resultBytes ++ numBytes
  resultBytes

/-! ## The detector of the specification

The surround and double-vote detector and its span table are not among the
sources (only the types `Span` and `DetectionResult` are); they are modelled
from section 4 of the specification. -/

/-- Modelled from the spec: the input of the detector (section 4.3),
`(validator_index, source_epoch, target_epoch, sig_fingerprint)` for one
incoming attestation.  The detector itself is missing from the sources. -/
structure Attestation where
  validator_index : Uint64
  source_epoch : Uint64
  target_epoch : Uint64
  sig_fingerprint : Byte × Byte
deriving DecidableEq, Repr

/-- Modelled from the spec: the Epoch Span Table (section 4.2), missing from the
sources: the stored span of a validator index at an epoch, if there is one.
The backing store is taken as a total map, so no `StorageError` arises. -/
abbrev SpanTable := Uint64 → Uint64 → Option Span

/-- Modelled from the spec: the freshly initialised span a missing table entry
stands for (`has_attested = false`, spans = 0); the table is missing from the
sources. -/
def defaultSpan : Span :=
  { MinSpan := 0, MaxSpan := 0, SigBytes := (0, 0), HasAttested := false }

/-- Modelled from the spec: the table with no record, missing from the sources. -/
def SpanTable.empty : SpanTable := fun _ _ => none

/-- Modelled from the spec: `get(validator_index, epoch) -> Span` of the span
table (section 4.2), missing from the sources: the stored value, or the default
span if absent. -/
def SpanTable.get (table : SpanTable) (validator_index epoch : Uint64) : Span :=
  match table validator_index epoch with
  | some span => span
  | none => defaultSpan

/-- Modelled from the spec: `put(validator_index, epoch, span)` of the span
table (section 4.2), missing from the sources: overwrites the stored value. -/
def SpanTable.put (table : SpanTable) (validator_index epoch : Uint64) (span : Span) :
    SpanTable :=
  fun v e => if v = validator_index ∧ e = epoch then some span else table v e

/-- Modelled from the spec: the error kinds of the detector (section 7) that the
model can raise; the detector is missing from the sources. -/
inductive DetectError where
  | PreconditionViolation
deriving DecidableEq, Repr

/-- Modelled from the spec: step 1 of the detector (section 4.3), missing from
the sources, the double-vote check: if `target_span.has_attested` is true and
`target_span.sig_fingerprint != sig_fingerprint`, emit
`DetectionResult{kind: DoubleVote, slashable_epoch: target_epoch, ...}`.  The
spec leaves the result's fingerprint open; the recorded one is taken. -/
def doubleVoteCheck (att : Attestation) (target_span : Span) : List DetectionResult :=
  if target_span.HasAttested = true ∧ target_span.SigBytes ≠ att.sig_fingerprint then
    [ { ValidatorIndex := att.validator_index, SlashableEpoch := att.target_epoch,
        Kind := DoubleVote, SigBytes := target_span.SigBytes } ]
  else []

/-- Modelled from the spec: step 2 of the detector (section 4.3), missing from
the sources: if `source_span.max_span > (target_epoch - source_epoch)`, emit
`DetectionResult{kind: SurroundVote, slashable_epoch: target_epoch, ...}`. -/
def surroundByNewCheck (att : Attestation) (source_span : Span) : List DetectionResult :=
  if source_span.MaxSpan.val > att.target_epoch.val - att.source_epoch.val then
    [ { ValidatorIndex := att.validator_index, SlashableEpoch := att.target_epoch,
        Kind := SurroundVote, SigBytes := source_span.SigBytes } ]
  else []

/-- Modelled from the spec: step 3 of the detector (section 4.3), missing from
the sources, read as: the offense case is a recorded minimum
(`target_span.min_span != 0`) smaller than the new attestation's own span
(`target_epoch - source_epoch`); emit `DetectionResult{kind: SurroundVote, ...}`.
The spec leaves the result's other fields open. -/
def surroundedByOldCheck (att : Attestation) (target_span : Span) : List DetectionResult :=
  if target_span.MinSpan.val ≠ 0 ∧
      target_span.MinSpan.val < att.target_epoch.val - att.source_epoch.val then
    [ { ValidatorIndex := att.validator_index, SlashableEpoch := att.target_epoch,
        Kind := SurroundVote, SigBytes := target_span.SigBytes } ]
  else []

/-- Modelled from the spec: the update of one span between source and target
(step 4 of section 4.3, missing from the sources): `max_span` becomes
`max(current, target_epoch - epoch)` and `min_span` becomes
`min(current_or_infinity, target_epoch - epoch)`, a `min_span` of zero being no
recorded minimum. -/
def updateSpan (span : Span) (distance : Nat) : Span :=
  { span with
    MaxSpan := toUint16 (max span.MaxSpan.val distance)
    MinSpan := toUint16 (if span.MinSpan.val = 0 then distance
                         else min span.MinSpan.val distance) }

/-- Modelled from the spec: step 4 of the detector (section 4.3), missing from
the sources: every span between `source_epoch` (exclusive) and `target_epoch`
(exclusive) is updated and put back, then the target span gets
`has_attested = true` and `sig_fingerprint`. -/
def updateTable (table : SpanTable) (att : Attestation) : SpanTable :=
  let between := List.range' (att.source_epoch.val + 1)
    (att.target_epoch.val - att.source_epoch.val - 1)
  let table := between.foldl
    (fun t e => t.put att.validator_index (toUint64 e)
      (updateSpan (t.get att.validator_index (toUint64 e)) (att.target_epoch.val - e)))
    table
  let target_span := table.get att.validator_index att.target_epoch
  table.put att.validator_index att.target_epoch
    { target_span with HasAttested := true, SigBytes := att.sig_fingerprint }

/-- Modelled from the spec: the detector's entry point (sections 4.3, 6 and 7),
missing from the sources: one attestation in, zero or more results and the
updated table out.  An attestation whose source epoch is not strictly less than
its target epoch is a `PreconditionViolation`, before any state mutation; the
double-vote check does not short-circuit the surround checks. -/
def detect (table : SpanTable) (att : Attestation) :
    Except DetectError (List DetectionResult × SpanTable) :=
  if ¬ (att.source_epoch < att.target_epoch) then
    Except.error DetectError.PreconditionViolation
  else
    let target_span := table.get att.validator_index att.target_epoch
    let source_span := table.get att.validator_index att.source_epoch
    let results := doubleVoteCheck att target_span
      ++ surroundByNewCheck att source_span
      ++ surroundedByOldCheck att target_span
    Except.ok (results, updateTable table att)

/-- The results of a run of the detector, none on an error. -/
def detectResults (table : SpanTable) (att : Attestation) : List DetectionResult :=
  match detect table att with
  | Except.ok (results, _) => results
  | Except.error _ => []

/-- The table after a run of the detector, unchanged on an error. -/
def detectTable (table : SpanTable) (att : Attestation) : SpanTable :=
  match detect table att with
  | Except.ok (_, table) => table
  | Except.error _ => table

/-- The table of the double-vote scenario of the specification (section 8):
validator 7 has attested target epoch 100 with fingerprint `A1`. -/
def scenarioTable : SpanTable :=
  detectTable SpanTable.empty
    { validator_index := 7, source_epoch := 99, target_epoch := 100,
      sig_fingerprint := (0xA1, 0) }

/-! ## The static analyzers

A shallow embedding of `tools/analyzers/comparesame/analyzer.go` and
`tools/analyzers/cryptorand/analyzer.go`.  The syntax tree of a package is the
sequence of nodes that `inspector.Preorder` visits; a Go string is a `String`
and a position a natural number. -/

/-- Go's `token.Token`, as far as the analyzers look at it: the six comparison
operators and any other operator. -/
inductive Token where
  | EQL
  | NEQ
  | GEQ
  | LEQ
  | GTR
  | LSS
  | Other (code : Nat)
deriving DecidableEq, Repr

/-- Go's `ast.Expr`, as far as the analyzers look at it: an identifier
(`*ast.Ident`), a selector `X.Sel` (`*ast.SelectorExpr`, whose `Sel` is an
identifier) and any other expression, kept as its source text. -/
inductive Expr where
  | Ident (NamePos : Nat) (Name : String)
  | SelectorExpr (X : Expr) (Sel : String)
  | Other (Pos : Nat) (text : String)
deriving DecidableEq, Repr

/-- Go's `Pos()` of an expression: where its first character stands. -/
def Expr.Pos : Expr → Nat
  | Expr.Ident p _ => p
  | Expr.SelectorExpr X _ => X.Pos
  | Expr.Other p _ => p

/-- The nodes the two analyzers ask `inspector.Preorder` for: `*ast.File`,
`*ast.ImportSpec` (its `Name`, `nil` being `none`, and its `Path.Value`, the
quoted import path), `*ast.CallExpr` (its `Fun`) and `*ast.BinaryExpr`. -/
inductive Node where
  | File
  | ImportSpec (Name : Option String) (PathValue : String)
  | CallExpr (Fun : Expr)
  | BinaryExpr (X : Expr) (OpPos : Nat) (Op : Token) (Y : Expr)
deriving DecidableEq, Repr

/-- What `pass.Reportf` records: a position and a message. -/
structure Diagnostic where
  Pos : Nat
  Message : String
deriving DecidableEq, Repr

/-- A printer for the expressions of the model, which never fails: the text
written to the buffer and the error (`none` is `nil`).  It stands for
`printer.Fprint` where a concrete printer is needed and agrees with it on
identifiers; the layout `go/printer` keeps inside a selector (a line break
after the dot) is not modelled. -/
def printExpr : Expr → String × Option String
  | Expr.Ident _ name => (name, none)
  | Expr.SelectorExpr X sel => ((printExpr X).1 ++ "." ++ sel, none)
  | Expr.Other _ text => (text, none)

/-- The value of the comparison `x op y` of two values of a totally ordered
type, for the six comparison operators; it is not part of the code, the
analyzer's message is compared with it. -/
def compareValue {α : Type} [LinearOrder α] (op : Token) (x y : α) : Option Bool :=
  match op with
  | Token.EQL => some (decide (x = y))
  | Token.NEQ => some (decide (x ≠ y))
  | Token.GEQ => some (decide (x ≥ y))
  | Token.LEQ => some (decide (x ≤ y))
  | Token.GTR => some (decide (x > y))
  | Token.LSS => some (decide (x < y))
  | Token.Other _ => none

/-- `const Doc` of the comparesame analyzer. -/
def comparesame.Doc : String :=
  "Tool to detect comparison (==, !=, >=, <=, >, <) of identical boolean expressions."

/-- `const messageTemplate` of the comparesame analyzer. -/
def comparesame.messageTemplate : String :=
  "Boolean expression has identical expressions on both sides. The result is always %v."

/-- The message `messageTemplate` formats to with a boolean argument: the verb
`%v` of a `bool` is `true` or `false`. -/
def comparesame.message (b : Bool) : String :=
  "Boolean expression has identical expressions on both sides. The result is always "
    ++ (if b then "true" else "false") ++ "."

/-- The inner `switch expr.Op` of the comparesame analyzer: the boolean passed
to `pass.Reportf(expr.OpPos, messageTemplate, ...)`. -/
def comparesame.reportedValue (op : Token) : Option Bool :=
  match op with
  | Token.EQL | Token.NEQ | Token.GEQ | Token.LEQ => some true
  | Token.GTR | Token.LSS => some false
  | Token.Other _ => none

/-- The function the comparesame analyzer passes to `inspector.Preorder`, with
the reports it makes on one node.  `Fprint` is `printer.Fprint`: the text
written to the buffer and the error. -/
def comparesame.visit (Fprint : Expr → String × Option String) (node : Node) :
    List Diagnostic :=
  match node with
  | Node.BinaryExpr X OpPos Op Y =>
    match Op with
    | Token.EQL | Token.NEQ | Token.GEQ | Token.LEQ | Token.GTR | Token.LSS =>
      let xBuf := (Fprint X).1
      let reportsX : List Diagnostic :=
        match (Fprint X).2 with
        | some err => [{ Pos := X.Pos, Message := err }]
        | none => []
      let yBuf := (Fprint Y).1
      let reportsY : List Diagnostic :=
        match (Fprint Y).2 with
        | some err => [{ Pos := Y.Pos, Message := err }]
        | none => []
      let reportsOp : List Diagnostic :=
        if xBuf = yBuf then
          match comparesame.reportedValue Op with
          | some b => [{ Pos := OpPos, Message := comparesame.message b }]
          | none => []
        else []
      reportsX ++ reportsY ++ reportsOp
    | Token.Other _ => []
  | _ => []

/-- `func run` of the comparesame analyzer on the nodes of a package, in
preorder: the node filter lets the binary expressions through. -/
def comparesame.run (Fprint : Expr → String × Option String) (nodes : List Node) :
    List Diagnostic :=
  (nodes.filter (fun node =>
      match node with
      | Node.BinaryExpr _ _ _ _ => true
      | _ => false)).flatMap (comparesame.visit Fprint)

/-- `const Doc` of the cryptorand analyzer. -/
def cryptorand.Doc : String :=
  "Tool to enforce the use of stronger crypto: crypto/rand instead of math/rand"

/-- The text of `errWeakCrypto`. -/
def cryptorand.errWeakCrypto : String :=
  "crypto-secure RNGs are required, use CSPRNG or PRNG defined in github.com/prysmaticlabs/prysm/shared/rand"

/-- The list `disallowedFns` of `run`. -/
def cryptorand.disallowedFns : List String :=
  ["NewSource", "New", "Seed", "Int63", "Uint32", "Uint64", "Int31", "Int",
    "Int63n", "Int31n", "Intn", "Float64", "Float32", "Perm", "Shuffle", "Read"]

/-- Go's `strings.HasSuffix(s, suffix)`. -/
def cryptorand.HasSuffix (s suffix : String) : Bool :=
  suffix.toList.isSuffixOf s.toList

/-- Go's `strings.Contains(s, substr)`: `substr` starts at some place of `s`. -/
def cryptorand.Contains (s substr : String) : Bool :=
  s.toList.tails.any (fun t => substr.toList.isPrefixOf t)

/-- The map `aliases` of `run`, from a package name to an import path; its
keys are distinct.  Go fixes no order of iteration; the order of the list is
one of them. -/
abbrev cryptorand.Aliases := List (String × String)

/-- The assignment `aliases[key] = value` of a Go map. -/
def cryptorand.setAlias (aliases : cryptorand.Aliases) (key value : String) :
    cryptorand.Aliases :=
  (key, value) :: aliases.filter (fun entry => decide (entry.1 ≠ key))

/-- `func isIdent(expr ast.Expr, ident string) bool`. -/
def cryptorand.isIdent (expr : Expr) (ident : String) : Bool :=
  match expr with
  | Expr.Ident _ name => decide (name = ident)
  | _ => false

/-- `func isPkgDot(expr ast.Expr, pkg, name string) bool`; the `Sel` of a
selector is an identifier. -/
def cryptorand.isPkgDot (expr : Expr) (pkg name : String) : Bool :=
  match expr with
  | Expr.SelectorExpr X Sel => cryptorand.isIdent X pkg && decide (Sel = name)
  | _ => false

/-- The message of a report of the cryptorand analyzer,
`"%s: %s.%s() (from %s)"` over the error text, `pkg`, `fn` and `path`. -/
def cryptorand.message (pkg fn path : String) : String :=
  cryptorand.errWeakCrypto ++ ": " ++ pkg ++ "." ++ fn ++ "() (from " ++ path ++ ")"

/-- The condition under which an import spec is collected:
`strings.HasSuffix(pkg, "/rand\"") && !strings.Contains(pkg, "/prysm/shared/rand")`. -/
def cryptorand.collected (pkg : String) : Bool :=
  cryptorand.HasSuffix pkg "/rand\"" && !cryptorand.Contains pkg "/prysm/shared/rand"

/-- The reports of the `*ast.CallExpr` case: for every alias and every
disallowed function, a report if the called function is `pkg.fn`. -/
def cryptorand.callReports (aliases : cryptorand.Aliases) (Fun : Expr) : List Diagnostic :=
  aliases.flatMap (fun entry =>
    cryptorand.disallowedFns.flatMap (fun fn =>
      if cryptorand.isPkgDot Fun entry.1 fn then
        [{ Pos := Fun.Pos, Message := cryptorand.message entry.1 fn entry.2 }]
      else []))

/-- The function the cryptorand analyzer passes to `inspector.Preorder`: the
map `aliases` after the node and the reports made on it.  A binary expression
is not in the node filter and is not visited. -/
def cryptorand.visit (aliases : cryptorand.Aliases) (node : Node) :
    cryptorand.Aliases × List Diagnostic :=
  match node with
  | Node.File => ([], [])
  | Node.ImportSpec Name PathValue =>
    let pkg := PathValue
    if cryptorand.collected pkg then
      match Name with
      | some name => (cryptorand.setAlias aliases name PathValue, [])
      | none => (cryptorand.setAlias aliases "rand" PathValue, [])
    else (aliases, [])
  | Node.CallExpr Fun => (aliases, cryptorand.callReports aliases Fun)
  | Node.BinaryExpr _ _ _ _ => (aliases, [])

/-- The traversal of the nodes in preorder from a given map `aliases`. -/
def cryptorand.runFrom (aliases : cryptorand.Aliases) : List Node → List Diagnostic
  | [] => []
  | node :: rest =>
    (cryptorand.visit aliases node).2 ++ cryptorand.runFrom (cryptorand.visit aliases node).1 rest

/-- `func run` of the cryptorand analyzer on the nodes of a package, in
preorder: `aliases` starts empty. -/
def cryptorand.run (nodes : List Node) : List Diagnostic :=
  cryptorand.runFrom [] nodes

/-- The map `aliases` once the nodes have been visited. -/
def cryptorand.aliasesAfter (nodes : List Node) : cryptorand.Aliases :=
  nodes.foldl (fun aliases node => (cryptorand.visit aliases node).1) []

/-- The nodes of the file being visited: those after the most recent
`*ast.File` node. -/
def cryptorand.currentFile (nodes : List Node) : List Node :=
  nodes.foldl (fun acc node =>
    match node with
    | Node.File => []
    | _ => acc ++ [node]) []

/-- The name an import spec gives its package in the file: the explicit alias,
or `rand` when there is none (the analyzer only names packages whose path ends
in `/rand`). -/
def cryptorand.localName (Name : Option String) : String :=
  match Name with
  | some name => name
  | none => "rand"

/-- The file has an import spec the analyzer collects under the name `pkg`. -/
def cryptorand.importsCollected (file : List Node) (pkg : String) : Prop :=
  ∃ Name PathValue, Node.ImportSpec Name PathValue ∈ file ∧
    cryptorand.collected PathValue = true ∧ cryptorand.localName Name = pkg

/-! ## Arithmetic of the byte operations -/

/-- Combining a low byte with a high byte shifted by eight, on `uint16`. -/
theorem or_shift_eq_add (a b : Nat) (ha : a < 256) (hb : b < 256) :
    (a % 65536 ||| ((b % 65536) <<< 8) % 65536) % 65536 = a + 256 * b := by
  have h1 : a % 65536 = a := Nat.mod_eq_of_lt (by omega)
  have h2 : b % 65536 = b := Nat.mod_eq_of_lt (by omega)
  have h3 : b <<< 8 = 2 ^ 8 * b := by rw [Nat.shiftLeft_eq, Nat.mul_comm]
  have h4 : (2 ^ 8 * b) % 65536 = 2 ^ 8 * b := Nat.mod_eq_of_lt (by omega)
  have h5 : 2 ^ 8 * b + a = 2 ^ 8 * b ||| a := Nat.mul_add_lt_is_or (by omega) b
  rw [h1, h2, h3, h4, Nat.or_comm, ← h5]
  omega

/-- The low bit test `x & 1 == 1` as a parity. -/
theorem and_one_eq_one_iff (x : Nat) : x &&& 1 = 1 ↔ x % 2 = 1 := by
  rw [Nat.and_one_is_mod]

/-- A list of length seven is seven elements. -/
theorem eq_of_length_seven {α : Type} (l : List α) (h : l.length = 7) :
    ∃ b0 b1 b2 b3 b4 b5 b6, l = [b0, b1, b2, b3, b4, b5, b6] := by
  match l, h with
  | [b0, b1, b2, b3, b4, b5, b6], _ => exact ⟨b0, b1, b2, b3, b4, b5, b6, rfl⟩

/-- What `UnmarshalSpan` computes on a buffer of seven bytes. -/
theorem UnmarshalSpan_seven (b0 b1 b2 b3 b4 b5 b6 : Byte) :
    UnmarshalSpan [b0, b1, b2, b3, b4, b5, b6] =
      ({ MinSpan := ⟨b0.val + 256 * b1.val, by omega⟩,
         MaxSpan := ⟨b2.val + 256 * b3.val, by omega⟩,
         SigBytes := (b4, b5),
         HasAttested := decide (b6.val % 2 = 1) }, none) := by
  have hmin := or_shift_eq_add b0.val b1.val b0.isLt b1.isLt
  have hmax := or_shift_eq_add b2.val b3.val b2.isLt b3.isLt
  have hbit := and_one_eq_one_iff b6.val
  have h7 : SpannerEncodedLength.val = 7 := by decide
  have hlen : ¬ ([b0, b1, b2, b3, b4, b5, b6].length ≠ SpannerEncodedLength.val) := by
    rw [h7]; simp
  simp only [UnmarshalSpan, toUint16]
  rw [dif_neg hlen]
  simp only [List.getElem_cons_zero, List.getElem_cons_succ, hmin, hmax, hbit]

/-- What `UnmarshalSpan` returns on a buffer of any other length. -/
theorem UnmarshalSpan_wrong_length (enc : List Byte) (h : enc.length ≠ 7) :
    UnmarshalSpan enc =
      ({ MinSpan := 0, MaxSpan := 0, SigBytes := (0, 0), HasAttested := false },
        some errWrongLength) := by
  have h7 : SpannerEncodedLength.val = 7 := by decide
  simp only [UnmarshalSpan]
  rw [dif_pos (by omega)]

/-- Splitting a `uint16` into its low and high byte loses nothing. -/
theorem low_high_byte (m : Nat) (h : m < 65536) :
    m % 256 + 256 * ((m >>> 8) % 256) = m := by
  rw [Nat.shiftRight_eq_div_pow]
  norm_num
  omega

/-- The flag byte written by `Span.Marshal` reads back as the flag. -/
theorem attested_byte_parity (b : Bool) :
    decide (((if b = true then (1 : Byte) else 0) : Byte).val % 2 = 1) = b := by
  cases b <;> decide

/-! ## The span codec -/

/-- C1: for every Span `s`, `UnmarshalSpan(s.Marshal())` succeeds with no error
and returns a Span equal to `s` in all four fields. -/
theorem UnmarshalSpan_Marshal_roundtrip (s : Span) :
    UnmarshalSpan s.Marshal = (s, none) := by
  obtain ⟨mn, mx, sig, att⟩ := s
  have hmn := low_high_byte mn.val mn.isLt
  have hmx := low_high_byte mx.val mx.isLt
  have hatt := attested_byte_parity att
  simp only [Span.Marshal]
  rw [UnmarshalSpan_seven]
  simp only [toByte, hmn, hmx, hatt]

/-- C2: for every byte sequence `enc`, `UnmarshalSpan(enc)` returns an error if
and only if `len(enc) != 7`; the error is the wrong-length error, and a buffer
of seven bytes decodes without error whatever its contents. -/
theorem UnmarshalSpan_error_iff (enc : List Byte) :
    ((UnmarshalSpan enc).2 ≠ none ↔ enc.length ≠ 7) ∧
    ((UnmarshalSpan enc).2 = none ∨ (UnmarshalSpan enc).2 = some errWrongLength) := by
  by_cases h : enc.length = 7
  · obtain ⟨b0, b1, b2, b3, b4, b5, b6, rfl⟩ := eq_of_length_seven enc h
    rw [UnmarshalSpan_seven]
    simp
  · rw [UnmarshalSpan_wrong_length enc h]
    simp [h]

/-- C3: for every Span `s`, `s.Marshal()` is exactly 7 bytes
(`SpannerEncodedLength`) with byte 0 = `MinSpan mod 256`, byte 1 =
`MinSpan div 256`, byte 2 = `MaxSpan mod 256`, byte 3 = `MaxSpan div 256`,
byte 4 = `SigBytes[0]`, byte 5 = `SigBytes[1]` and byte 6 = 1 if `HasAttested`
else 0, so bits 1-7 of byte 6 are written as zero. -/
theorem Span_Marshal_layout (s : Span) :
    s.Marshal.length = 7 ∧ s.Marshal.length = SpannerEncodedLength.val ∧
    s.Marshal.map Fin.val =
      [ s.MinSpan.val % 256, s.MinSpan.val / 256,
        s.MaxSpan.val % 256, s.MaxSpan.val / 256,
        s.SigBytes.1.val, s.SigBytes.2.val,
        if s.HasAttested = true then 1 else 0 ] ∧
    (s.Marshal.getD 6 0).val >>> 1 = 0 := by
  obtain ⟨mn, mx, sig, att⟩ := s
  have hmn : (mn.val >>> 8) % 256 = mn.val / 256 := by
    rw [Nat.shiftRight_eq_div_pow]
    have := mn.isLt
    norm_num
    omega
  have hmx : (mx.val >>> 8) % 256 = mx.val / 256 := by
    rw [Nat.shiftRight_eq_div_pow]
    have := mx.isLt
    norm_num
    omega
  have h7 : (7 : Nat) = SpannerEncodedLength.val := by decide
  refine ⟨rfl, h7, ?_, ?_⟩
  · simp only [Span.Marshal, toByte, List.map_cons, List.map_nil, hmn, hmx]
    cases att <;> rfl
  · cases att
    · show (0 : Byte).val >>> 1 = 0
      decide
    · show (1 : Byte).val >>> 1 = 0
      decide

/-- C4: for every 7-byte buffer `b`, `UnmarshalSpan(b)` returns, with no error,
the Span with `MinSpan = b[0] + 256*b[1]`, `MaxSpan = b[2] + 256*b[3]`,
`SigBytes = [b[4], b[5]]` and `HasAttested` = (bit 0 of `b[6]` is set). -/
theorem UnmarshalSpan_layout (b : List Byte) (hlen : b.length = 7) :
    (UnmarshalSpan b).2 = none ∧
    (UnmarshalSpan b).1.MinSpan.val = (b.getD 0 0).val + 256 * (b.getD 1 0).val ∧
    (UnmarshalSpan b).1.MaxSpan.val = (b.getD 2 0).val + 256 * (b.getD 3 0).val ∧
    (UnmarshalSpan b).1.SigBytes = (b.getD 4 0, b.getD 5 0) ∧
    (UnmarshalSpan b).1.HasAttested = (b.getD 6 0).val.testBit 0 := by
  obtain ⟨b0, b1, b2, b3, b4, b5, b6, rfl⟩ := eq_of_length_seven b hlen
  rw [UnmarshalSpan_seven]
  refine ⟨rfl, rfl, rfl, rfl, ?_⟩
  simp [Nat.testBit_zero]

/-- Witness of C4 on the buffer `01 02 03 04 05 06 ff`. -/
theorem UnmarshalSpan_layout_witness :
    ([1, 2, 3, 4, 5, 6, 255] : List Byte).length = 7 ∧
    (UnmarshalSpan [1, 2, 3, 4, 5, 6, 255]).2 = none ∧
    (UnmarshalSpan [1, 2, 3, 4, 5, 6, 255]).1.MinSpan.val = 513 ∧
    (UnmarshalSpan [1, 2, 3, 4, 5, 6, 255]).1.MaxSpan.val = 1027 ∧
    (UnmarshalSpan [1, 2, 3, 4, 5, 6, 255]).1.SigBytes = (5, 6) ∧
    (UnmarshalSpan [1, 2, 3, 4, 5, 6, 255]).1.HasAttested = true :=
  ⟨by decide, UnmarshalSpan_layout [1, 2, 3, 4, 5, 6, 255] (by decide)⟩

/-- C5: reserved bits are ignored on read: two 7-byte buffers that agree on
bytes 0-5 and on bit 0 of byte 6 both decode without error, to equal Spans. -/
theorem UnmarshalSpan_ignores_reserved_bits (b1 b2 : List Byte)
    (h1 : b1.length = 7) (h2 : b2.length = 7)
    (hbytes : ∀ i, i < 6 → b1.getD i 0 = b2.getD i 0)
    (hbit : (b1.getD 6 0).val.testBit 0 = (b2.getD 6 0).val.testBit 0) :
    (UnmarshalSpan b1).2 = none ∧ (UnmarshalSpan b2).2 = none ∧
    (UnmarshalSpan b1).1 = (UnmarshalSpan b2).1 := by
  obtain ⟨a0, a1, a2, a3, a4, a5, a6, rfl⟩ := eq_of_length_seven b1 h1
  obtain ⟨c0, c1, c2, c3, c4, c5, c6, rfl⟩ := eq_of_length_seven b2 h2
  have e0 : a0 = c0 := hbytes 0 (by decide)
  have e1 : a1 = c1 := hbytes 1 (by decide)
  have e2 : a2 = c2 := hbytes 2 (by decide)
  have e3 : a3 = c3 := hbytes 3 (by decide)
  have e4 : a4 = c4 := hbytes 4 (by decide)
  have e5 : a5 = c5 := hbytes 5 (by decide)
  have e6 : decide (a6.val % 2 = 1) = decide (c6.val % 2 = 1) := by
    simpa [Nat.testBit_zero] using hbit
  subst e0 e1 e2 e3 e4 e5
  rw [UnmarshalSpan_seven, UnmarshalSpan_seven, e6]
  exact ⟨rfl, rfl, rfl⟩

/-- Witness of C5: the flag bytes `01` and `ff` differ in bits 1-7 only. -/
theorem UnmarshalSpan_ignores_reserved_bits_witness :
    (Nat.testBit 1 0 = Nat.testBit 255 0) ∧
    (UnmarshalSpan [1, 2, 3, 4, 5, 6, 1]).2 = none ∧
    (UnmarshalSpan [1, 2, 3, 4, 5, 6, 255]).2 = none ∧
    (UnmarshalSpan [1, 2, 3, 4, 5, 6, 1]).1 = (UnmarshalSpan [1, 2, 3, 4, 5, 6, 255]).1 :=
  ⟨by decide,
   UnmarshalSpan_ignores_reserved_bits [1, 2, 3, 4, 5, 6, 1] [1, 2, 3, 4, 5, 6, 255]
    (by decide) (by decide)
    (by
      intro i hi
      match i, hi with
      | 0, _ => rfl
      | 1, _ => rfl
      | 2, _ => rfl
      | 3, _ => rfl
      | 4, _ => rfl
      | 5, _ => rfl)
    (by decide)⟩

/-- C10: on a decode error no field value is guessed from the buffer: for every
byte sequence of length other than 7, the Span returned alongside the error is
the zero Span, whatever the contents of the buffer. -/
theorem UnmarshalSpan_error_zero_span (enc : List Byte) (h : enc.length ≠ 7) :
    (UnmarshalSpan enc).2 = some errWrongLength ∧
    (UnmarshalSpan enc).1.MinSpan.val = 0 ∧
    (UnmarshalSpan enc).1.MaxSpan.val = 0 ∧
    (UnmarshalSpan enc).1.SigBytes = (0, 0) ∧
    (UnmarshalSpan enc).1.HasAttested = false := by
  rw [UnmarshalSpan_wrong_length enc h]
  exact ⟨rfl, rfl, rfl, rfl, rfl⟩

/-- Witness of C10 on a buffer of eight bytes, none of them zero. -/
theorem UnmarshalSpan_error_zero_span_witness :
    [9, 9, 9, 9, 9, 9, 255, 9].length ≠ 7 ∧
    (UnmarshalSpan [9, 9, 9, 9, 9, 9, 255, 9]).2 = some errWrongLength ∧
    (UnmarshalSpan [9, 9, 9, 9, 9, 9, 255, 9]).1.MinSpan.val = 0 ∧
    (UnmarshalSpan [9, 9, 9, 9, 9, 9, 255, 9]).1.MaxSpan.val = 0 ∧
    (UnmarshalSpan [9, 9, 9, 9, 9, 9, 255, 9]).1.SigBytes = (0, 0) ∧
    (UnmarshalSpan [9, 9, 9, 9, 9, 9, 255, 9]).1.HasAttested = false :=
  ⟨by decide, UnmarshalSpan_error_zero_span [9, 9, 9, 9, 9, 9, 255, 9] (by decide)⟩

/-! ## The detection result codec -/

/-- The eight bytes `ToBytes` returns for length 8. -/
theorem ToBytes_eight (x : Uint64) :
    ToBytes x 8 =
      [ toByte x.val, toByte (x.val >>> 8), toByte (x.val >>> 16), toByte (x.val >>> 24),
        toByte (x.val >>> 32), toByte (x.val >>> 40), toByte (x.val >>> 48),
        toByte (x.val >>> 56) ] := by
  simp [ToBytes, PutUint64]

/-- The eleven bytes of an encoded detection result. -/
theorem Marshal_eq (r : DetectionResult) :
    r.Marshal =
      [ r.Kind, r.SigBytes.1, r.SigBytes.2,
        toByte r.SlashableEpoch.val, toByte (r.SlashableEpoch.val >>> 8),
        toByte (r.SlashableEpoch.val >>> 16), toByte (r.SlashableEpoch.val >>> 24),
        toByte (r.SlashableEpoch.val >>> 32), toByte (r.SlashableEpoch.val >>> 40),
        toByte (r.SlashableEpoch.val >>> 48), toByte (r.SlashableEpoch.val >>> 56) ] := by
  have hk : toByte r.Kind.val = r.Kind := by
    apply Fin.ext
    show r.Kind.val % 256 = r.Kind.val
    exact Nat.mod_eq_of_lt r.Kind.isLt
  simp only [DetectionResult.Marshal, ToBytes_eight, hk]
  rfl

/-- The eight little-endian bytes of a `uint64` determine it. -/
theorem le_bytes_injective (x y : Nat)
    (hx : x < 18446744073709551616) (hy : y < 18446744073709551616)
    (h0 : x % 256 = y % 256) (h1 : (x >>> 8) % 256 = (y >>> 8) % 256)
    (h2 : (x >>> 16) % 256 = (y >>> 16) % 256) (h3 : (x >>> 24) % 256 = (y >>> 24) % 256)
    (h4 : (x >>> 32) % 256 = (y >>> 32) % 256) (h5 : (x >>> 40) % 256 = (y >>> 40) % 256)
    (h6 : (x >>> 48) % 256 = (y >>> 48) % 256) (h7 : (x >>> 56) % 256 = (y >>> 56) % 256) :
    x = y := by
  simp only [Nat.shiftRight_eq_div_pow] at h1 h2 h3 h4 h5 h6 h7
  norm_num at h1 h2 h3 h4 h5 h6 h7
  omega

/-- Two detection results have the same encoding exactly when they agree in
kind, signature bytes and slashable epoch. -/
theorem Marshal_eq_iff (r1 r2 : DetectionResult) :
    r1.Marshal = r2.Marshal ↔
      r1.Kind = r2.Kind ∧ r1.SigBytes = r2.SigBytes ∧
      r1.SlashableEpoch = r2.SlashableEpoch := by
  constructor
  · intro h
    rw [Marshal_eq, Marshal_eq] at h
    simp only [List.cons.injEq, and_true, toByte, Fin.mk.injEq] at h
    obtain ⟨hk, hs1, hs2, h0, h1, h2, h3, h4, h5, h6, h7⟩ := h
    refine ⟨hk, Prod.ext hs1 hs2, Fin.ext ?_⟩
    exact le_bytes_injective _ _ r1.SlashableEpoch.isLt r2.SlashableEpoch.isLt
      h0 h1 h2 h3 h4 h5 h6 h7
  · rintro ⟨hk, hs, he⟩
    rw [Marshal_eq, Marshal_eq, hk, hs, he]

/-- C6: for every DetectionResult `r`, `r.Marshal()` is exactly 11 bytes, byte 0
is the kind tag (0 when `Kind = DoubleVote`, 1 when `Kind = SurroundVote`), and
bytes 1-2 are `r.SigBytes[0]`, `r.SigBytes[1]` in order. -/
theorem Marshal_length_kind_sig (r : DetectionResult) :
    r.Marshal.length = 11 ∧
    r.Marshal.take 3 = [r.Kind, r.SigBytes.1, r.SigBytes.2] ∧
    DoubleVote.val = 0 ∧ SurroundVote.val = 1 ∧
    (r.Kind = DoubleVote → r.Marshal.getD 0 255 = 0) ∧
    (r.Kind = SurroundVote → r.Marshal.getD 0 255 = 1) := by
  rw [Marshal_eq]
  refine ⟨rfl, rfl, rfl, rfl, ?_, ?_⟩
  · intro h
    rw [h]
    rfl
  · intro h
    rw [h]
    rfl

/-- C7, as the code has it: for every DetectionResult `r`, bytes 3-10 of
`r.Marshal()` are `r.SlashableEpoch` written as a little-endian 8-byte unsigned
integer: byte 3 is the least significant byte, byte 10 the most significant,
and the eight bytes give the epoch back. -/
theorem Marshal_epoch_little_endian (r : DetectionResult) :
    r.Marshal.length = 11 ∧
    (r.Marshal.drop 3).map Fin.val =
      [ r.SlashableEpoch.val % 256,
        r.SlashableEpoch.val / 256 % 256,
        r.SlashableEpoch.val / 256 ^ 2 % 256,
        r.SlashableEpoch.val / 256 ^ 3 % 256,
        r.SlashableEpoch.val / 256 ^ 4 % 256,
        r.SlashableEpoch.val / 256 ^ 5 % 256,
        r.SlashableEpoch.val / 256 ^ 6 % 256,
        r.SlashableEpoch.val / 256 ^ 7 % 256 ] ∧
    (r.Marshal.getD 3 0).val + 256 * (r.Marshal.getD 4 0).val
      + 256 ^ 2 * (r.Marshal.getD 5 0).val + 256 ^ 3 * (r.Marshal.getD 6 0).val
      + 256 ^ 4 * (r.Marshal.getD 7 0).val + 256 ^ 5 * (r.Marshal.getD 8 0).val
      + 256 ^ 6 * (r.Marshal.getD 9 0).val + 256 ^ 7 * (r.Marshal.getD 10 0).val
      = r.SlashableEpoch.val := by
  have hlt := r.SlashableEpoch.isLt
  rw [Marshal_eq]
  refine ⟨rfl, ?_, ?_⟩
  · simp only [List.drop_succ_cons, List.drop_zero, List.map_cons, List.map_nil, toByte,
      Nat.shiftRight_eq_div_pow]
    norm_num
  · simp only [List.getD_cons_succ, List.getD_cons_zero, toByte, Nat.shiftRight_eq_div_pow]
    norm_num
    omega

/-- C7 fails as stated: the result with slashable epoch 100 has the epoch bytes
`64 00 00 00 00 00 00 00`, byte 3 being the least significant byte, while the
big-endian bytes of 100 are `00 00 00 00 00 00 00 64`. -/
theorem Marshal_epoch_not_big_endian :
    (DetectionResult.Marshal ⟨7, 100, DoubleVote, (0xA1, 0)⟩).drop 3
      = [100, 0, 0, 0, 0, 0, 0, 0] ∧
    bigEndian8 100 = [0, 0, 0, 0, 0, 0, 0, 100] ∧
    ¬ ((DetectionResult.Marshal ⟨7, 100, DoubleVote, (0xA1, 0)⟩).drop 3 = bigEndian8 100) := by
  decide

/-- C8, as the code has it: for every two DetectionResults `r1` and `r2`, if
`r1.Marshal() = r2.Marshal()` then they agree in SlashableEpoch, Kind and
SigBytes; the encoding does not hold the ValidatorIndex. -/
theorem Marshal_dedup_key (r1 r2 : DetectionResult) (h : r1.Marshal = r2.Marshal) :
    r1.SlashableEpoch = r2.SlashableEpoch ∧ r1.Kind = r2.Kind ∧
    r1.SigBytes = r2.SigBytes := by
  obtain ⟨hk, hs, he⟩ := (Marshal_eq_iff r1 r2).mp h
  exact ⟨he, hk, hs⟩

/-- Witness of C8 as amended: validators 7 and 8, same offense data. -/
theorem Marshal_dedup_key_witness :
    DetectionResult.Marshal ⟨7, 100, DoubleVote, (0xA1, 0)⟩
      = DetectionResult.Marshal ⟨8, 100, DoubleVote, (0xA1, 0)⟩ ∧
    ((⟨7, 100, DoubleVote, (0xA1, 0)⟩ : DetectionResult).SlashableEpoch
        = (⟨8, 100, DoubleVote, (0xA1, 0)⟩ : DetectionResult).SlashableEpoch ∧
      (⟨7, 100, DoubleVote, (0xA1, 0)⟩ : DetectionResult).Kind
        = (⟨8, 100, DoubleVote, (0xA1, 0)⟩ : DetectionResult).Kind ∧
      (⟨7, 100, DoubleVote, (0xA1, 0)⟩ : DetectionResult).SigBytes
        = (⟨8, 100, DoubleVote, (0xA1, 0)⟩ : DetectionResult).SigBytes) :=
  ⟨by decide, Marshal_dedup_key ⟨7, 100, DoubleVote, (0xA1, 0)⟩
    ⟨8, 100, DoubleVote, (0xA1, 0)⟩ (by decide)⟩

/-- C8 fails as stated: the results of validators 7 and 8 for the same epoch,
kind and signature bytes have the same encoding and differ in ValidatorIndex. -/
theorem Marshal_dedup_key_not_validator :
    ¬ (DetectionResult.Marshal ⟨7, 100, DoubleVote, (0xA1, 0)⟩
        = DetectionResult.Marshal ⟨8, 100, DoubleVote, (0xA1, 0)⟩ →
      (⟨7, 100, DoubleVote, (0xA1, 0)⟩ : DetectionResult).ValidatorIndex
          = (⟨8, 100, DoubleVote, (0xA1, 0)⟩ : DetectionResult).ValidatorIndex ∧
        (⟨7, 100, DoubleVote, (0xA1, 0)⟩ : DetectionResult).SlashableEpoch
          = (⟨8, 100, DoubleVote, (0xA1, 0)⟩ : DetectionResult).SlashableEpoch ∧
        (⟨7, 100, DoubleVote, (0xA1, 0)⟩ : DetectionResult).Kind
          = (⟨8, 100, DoubleVote, (0xA1, 0)⟩ : DetectionResult).Kind ∧
        (⟨7, 100, DoubleVote, (0xA1, 0)⟩ : DetectionResult).SigBytes
          = (⟨8, 100, DoubleVote, (0xA1, 0)⟩ : DetectionResult).SigBytes) := by
  decide

/-! ## The double-vote check of the detector -/

/-- The surround checks only emit results of kind `SurroundVote`. -/
theorem surround_checks_kind (att : Attestation) (source_span target_span : Span)
    (r : DetectionResult)
    (h : r ∈ surroundByNewCheck att source_span ++ surroundedByOldCheck att target_span) :
    r.Kind = SurroundVote := by
  rw [List.mem_append] at h
  rcases h with h | h
  · unfold surroundByNewCheck at h
    split at h
    · rw [List.mem_singleton] at h
      rw [h]
    · simp at h
  · unfold surroundedByOldCheck at h
    split at h
    · rw [List.mem_singleton] at h
      rw [h]
    · simp at h

/-- The results of the detector on an attestation with `source < target`. -/
theorem detectResults_eq (table : SpanTable) (att : Attestation)
    (hst : att.source_epoch < att.target_epoch) :
    detect table att = Except.ok (detectResults table att, updateTable table att) ∧
    detectResults table att =
      doubleVoteCheck att (table.get att.validator_index att.target_epoch)
        ++ (surroundByNewCheck att (table.get att.validator_index att.source_epoch)
        ++ surroundedByOldCheck att (table.get att.validator_index att.target_epoch)) := by
  have h : detect table att = Except.ok
      (doubleVoteCheck att (table.get att.validator_index att.target_epoch)
        ++ surroundByNewCheck att (table.get att.validator_index att.source_epoch)
        ++ surroundedByOldCheck att (table.get att.validator_index att.target_epoch),
       updateTable table att) := by
    unfold detect
    rw [if_neg (not_not.mpr hst)]
  have hr : detectResults table att =
      doubleVoteCheck att (table.get att.validator_index att.target_epoch)
        ++ surroundByNewCheck att (table.get att.validator_index att.source_epoch)
        ++ surroundedByOldCheck att (table.get att.validator_index att.target_epoch) := by
    unfold detectResults
    rw [h]
  rw [hr, h, List.append_assoc]
  exact ⟨rfl, rfl⟩

/-- C9: double-vote detection: for every incoming attestation with
`source < target` the detector returns; if the validator's Span at the target
epoch has `HasAttested = true` and SigBytes different from the incoming
fingerprint, a returned DetectionResult has `Kind = DoubleVote`,
`SlashableEpoch = target` and `ValidatorIndex = validator`; and if HasAttested
is true with equal SigBytes, no DoubleVote result is returned. -/
theorem detect_double_vote (table : SpanTable) (att : Attestation)
    (hst : att.source_epoch < att.target_epoch) :
    (∃ table_after, detect table att = Except.ok (detectResults table att, table_after)) ∧
    ((table.get att.validator_index att.target_epoch).HasAttested = true →
      (table.get att.validator_index att.target_epoch).SigBytes ≠ att.sig_fingerprint →
      ∃ r, r ∈ detectResults table att ∧ r.Kind = DoubleVote ∧
        r.SlashableEpoch = att.target_epoch ∧ r.ValidatorIndex = att.validator_index) ∧
    ((table.get att.validator_index att.target_epoch).HasAttested = true →
      (table.get att.validator_index att.target_epoch).SigBytes = att.sig_fingerprint →
      ∀ r, r ∈ detectResults table att → r.Kind ≠ DoubleVote) := by
  obtain ⟨hd, hr⟩ := detectResults_eq table att hst
  refine ⟨⟨_, hd⟩, ?_, ?_⟩
  · intro ha hs
    refine ⟨{ ValidatorIndex := att.validator_index, SlashableEpoch := att.target_epoch,
              Kind := DoubleVote,
              SigBytes := (table.get att.validator_index att.target_epoch).SigBytes },
            ?_, rfl, rfl, rfl⟩
    rw [hr, List.mem_append]
    left
    unfold doubleVoteCheck
    rw [if_pos ⟨ha, hs⟩]
    exact List.mem_singleton.mpr rfl
  · intro _ hs r hmem hk
    rw [hr, List.mem_append] at hmem
    rcases hmem with hmem | hmem
    · unfold doubleVoteCheck at hmem
      rw [if_neg (fun hc => hc.2 hs)] at hmem
      simp at hmem
    · have hsur := surround_checks_kind att _ _ r hmem
      rw [hk] at hsur
      exact absurd hsur (by decide)

/-- Witness of C9, the double-vote scenario: validator 7 has attested target
epoch 100 with fingerprint `A1`; a second attestation of validator 7 for target
epoch 100 with fingerprint `B2` yields a DoubleVote result. -/
theorem detect_double_vote_witness :
    (99 : Uint64) < 100 ∧
    (scenarioTable.get 7 100).HasAttested = true ∧
    (scenarioTable.get 7 100).SigBytes ≠ (0xB2, 0) ∧
    ∃ r, r ∈ detectResults scenarioTable ⟨7, 99, 100, (0xB2, 0)⟩ ∧ r.Kind = DoubleVote ∧
      r.SlashableEpoch = 100 ∧ r.ValidatorIndex = 7 :=
  ⟨by decide, by decide, by decide,
    (detect_double_vote scenarioTable ⟨7, 99, 100, (0xB2, 0)⟩ (by decide)).2.1
      (by decide) (by decide)⟩

/-! ## Re-encoding and the dependencies of the result encoding -/

/-- The low byte of a little-endian pair. -/
theorem toByte_low (a b : Byte) : toByte (a.val + 256 * b.val) = a := by
  apply Fin.ext
  show (a.val + 256 * b.val) % 256 = a.val
  have := a.isLt
  omega

/-- The high byte of a little-endian pair. -/
theorem toByte_high (a b : Byte) : toByte ((a.val + 256 * b.val) >>> 8) = b := by
  apply Fin.ext
  show ((a.val + 256 * b.val) >>> 8) % 256 = b.val
  rw [Nat.shiftRight_eq_div_pow]
  have := a.isLt
  have := b.isLt
  norm_num
  omega

/-- The flag byte written for a decoded flag is the low bit of the byte read. -/
theorem attested_byte_eq_and_one (b : Byte) :
    (if decide (b.val % 2 = 1) = true then (1 : Byte) else 0) = toByte (b.val &&& 1) := by
  apply Fin.ext
  rw [Nat.and_one_is_mod]
  show _ = b.val % 2 % 256
  by_cases h : b.val % 2 = 1
  · simp [h]
  · have h0 : b.val % 2 = 0 := by omega
    simp [h0]

/-- C14: re-encoding a decoded buffer canonicalises only the reserved bits: for
every 7-byte buffer `b`, `UnmarshalSpan(b)` succeeds with a span `s` and
`s.Marshal()` equals `b` with byte 6 replaced by `b[6] AND 1`; in particular
`s.Marshal() = b` whenever bits 1-7 of `b[6]` are zero. -/
theorem Marshal_UnmarshalSpan_canonical (b : List Byte) (hlen : b.length = 7) :
    (UnmarshalSpan b).2 = none ∧
    (UnmarshalSpan b).1.Marshal = b.set 6 (toByte ((b.getD 6 0).val &&& 1)) ∧
    ((b.getD 6 0).val >>> 1 = 0 → (UnmarshalSpan b).1.Marshal = b) := by
  obtain ⟨b0, b1, b2, b3, b4, b5, b6, rfl⟩ := eq_of_length_seven b hlen
  have hcanon : (UnmarshalSpan [b0, b1, b2, b3, b4, b5, b6]).1.Marshal
      = [b0, b1, b2, b3, b4, b5, toByte (b6.val &&& 1)] := by
    rw [UnmarshalSpan_seven]
    simp only [Span.Marshal, toByte_low, toByte_high, attested_byte_eq_and_one]
  refine ⟨?_, ?_, ?_⟩
  · rw [UnmarshalSpan_seven]
  · rw [hcanon]
    rfl
  · intro hz
    rw [hcanon]
    have hb : toByte (b6.val &&& 1) = b6 := by
      apply Fin.ext
      show (b6.val &&& 1) % 256 = b6.val
      rw [Nat.and_one_is_mod]
      have hz2 : b6.val >>> 1 = 0 := hz
      rw [Nat.shiftRight_eq_div_pow] at hz2
      norm_num at hz2
      omega
    rw [hb]

/-- Witness of C14: the buffer `01 02 03 04 05 06 ff` is re-encoded as
`01 02 03 04 05 06 01`. -/
theorem Marshal_UnmarshalSpan_canonical_witness :
    ([1, 2, 3, 4, 5, 6, 255] : List Byte).length = 7 ∧
    (UnmarshalSpan [1, 2, 3, 4, 5, 6, 255]).2 = none ∧
    (UnmarshalSpan [1, 2, 3, 4, 5, 6, 255]).1.Marshal = [1, 2, 3, 4, 5, 6, 1] :=
  ⟨by decide,
   (Marshal_UnmarshalSpan_canonical [1, 2, 3, 4, 5, 6, 255] (by decide)).1,
   (Marshal_UnmarshalSpan_canonical [1, 2, 3, 4, 5, 6, 255] (by decide)).2.1⟩

/-- C15: `DetectionResult.Marshal` depends exactly on Kind, SigBytes and
SlashableEpoch: two results have the same encoding if and only if they agree in
these three fields; the ValidatorIndex never influences the output, so results
that differ only in ValidatorIndex have identical encodings. -/
theorem Marshal_depends_exactly (r1 r2 : DetectionResult) :
    (r1.Marshal = r2.Marshal ↔
      r1.Kind = r2.Kind ∧ r1.SigBytes = r2.SigBytes ∧
      r1.SlashableEpoch = r2.SlashableEpoch) ∧
    (∀ v : Uint64, DetectionResult.Marshal { r1 with ValidatorIndex := v } = r1.Marshal) := by
  refine ⟨Marshal_eq_iff r1 r2, ?_⟩
  intro v
  exact (Marshal_eq_iff _ _).mpr ⟨rfl, rfl, rfl⟩

/-! ## The comparesame analyzer -/

/-- On identical operands the comparisons `==`, `>=`, `<=` are true and `!=`,
`>`, `<` are false, in every totally ordered type. -/
theorem compareValue_self {α : Type} [LinearOrder α] (x : α) :
    compareValue Token.EQL x x = some true ∧ compareValue Token.GEQ x x = some true ∧
    compareValue Token.LEQ x x = some true ∧ compareValue Token.NEQ x x = some false ∧
    compareValue Token.GTR x x = some false ∧ compareValue Token.LSS x x = some false := by
  simp [compareValue]

/-- For the five operators `==`, `>=`, `<=`, `>`, `<` the boolean the analyzer
reports is the value of `x op x`. -/
theorem reportedValue_eq_compareValue {α : Type} [LinearOrder α] (x : α) :
    comparesame.reportedValue Token.EQL = compareValue Token.EQL x x ∧
    comparesame.reportedValue Token.GEQ = compareValue Token.GEQ x x ∧
    comparesame.reportedValue Token.LEQ = compareValue Token.LEQ x x ∧
    comparesame.reportedValue Token.GTR = compareValue Token.GTR x x ∧
    comparesame.reportedValue Token.LSS = compareValue Token.LSS x x := by
  simp [compareValue, comparesame.reportedValue]

/-- C11 fails on the code for `!=`: on the expression `a != a` the analyzer
reports "The result is always true.", the boolean it passes for `!=` is `true`,
and the value of `x != x` is `false` for every value of a totally ordered type. -/
theorem comparesame_neq_reports_true :
    comparesame.run printExpr
        [Node.BinaryExpr (Expr.Ident 1 "a") 3 Token.NEQ (Expr.Ident 6 "a")]
      = [{ Pos := 3, Message :=
            "Boolean expression has identical expressions on both sides. The result is always true." }] ∧
    comparesame.reportedValue Token.NEQ = some true ∧
    (∀ (α : Type) [LinearOrder α] (x : α), compareValue Token.NEQ x x = some false) := by
  refine ⟨by decide, rfl, ?_⟩
  intro α _ x
  exact (compareValue_self x).2.2.2.1

/-! ## The cryptorand analyzer -/

/-- The entries of the map after an assignment. -/
theorem mem_setAlias (aliases : cryptorand.Aliases) (key value a b : String) :
    (a, b) ∈ cryptorand.setAlias aliases key value ↔
      (a = key ∧ b = value) ∨ (a ≠ key ∧ (a, b) ∈ aliases) := by
  simp only [cryptorand.setAlias, List.mem_cons, List.mem_filter, Prod.mk.injEq,
    decide_eq_true_eq]
  constructor
  · rintro (h | ⟨h1, h2⟩)
    · exact Or.inl h
    · exact Or.inr ⟨h2, h1⟩
  · rintro (h | ⟨h1, h2⟩)
    · exact Or.inl h
    · exact Or.inr ⟨h2, h1⟩

/-- `isPkgDot` holds of the selectors `pkg.name` on an identifier `pkg`. -/
theorem isPkgDot_iff (expr : Expr) (pkg name : String) :
    cryptorand.isPkgDot expr pkg name = true ↔
      ∃ p, expr = Expr.SelectorExpr (Expr.Ident p pkg) name := by
  cases expr with
  | Ident p n => simp [cryptorand.isPkgDot]
  | Other p t => simp [cryptorand.isPkgDot]
  | SelectorExpr X Sel =>
    cases X with
    | Ident p n =>
      simp only [cryptorand.isPkgDot, cryptorand.isIdent, Bool.and_eq_true, decide_eq_true_eq,
        Expr.SelectorExpr.injEq, Expr.Ident.injEq]
      constructor
      · rintro ⟨h1, h2⟩
        exact ⟨p, ⟨rfl, h1⟩, h2⟩
      · rintro ⟨q, ⟨_, h1⟩, h2⟩
        exact ⟨h1, h2⟩
    | SelectorExpr Y S => simp [cryptorand.isPkgDot, cryptorand.isIdent]
    | Other p t => simp [cryptorand.isPkgDot, cryptorand.isIdent]

/-- The reports made on a call: one for every alias `pkg` and disallowed
function `fn` such that the called function is `pkg.fn`. -/
theorem mem_callReports (aliases : cryptorand.Aliases) (Fun : Expr) (d : Diagnostic) :
    d ∈ cryptorand.callReports aliases Fun ↔
      ∃ pkg path fn, (pkg, path) ∈ aliases ∧ fn ∈ cryptorand.disallowedFns ∧
        cryptorand.isPkgDot Fun pkg fn = true ∧
        d = { Pos := Fun.Pos, Message := cryptorand.message pkg fn path } := by
  simp only [cryptorand.callReports, List.mem_flatMap]
  constructor
  · rintro ⟨⟨pkg, path⟩, hmem, fn, hfn, hd⟩
    by_cases h : cryptorand.isPkgDot Fun pkg fn = true
    · rw [if_pos h, List.mem_singleton] at hd
      exact ⟨pkg, path, fn, hmem, hfn, h, hd⟩
    · rw [if_neg h] at hd
      exact absurd hd (List.not_mem_nil d)
  · rintro ⟨pkg, path, fn, hmem, hfn, h, hd⟩
    refine ⟨(pkg, path), hmem, fn, hfn, ?_⟩
    show d ∈ (if cryptorand.isPkgDot Fun pkg fn = true then _ else _)
    rw [if_pos h, List.mem_singleton]
    exact hd

/-- The map after one more node. -/
theorem aliasesAfter_concat (pre : List Node) (node : Node) :
    cryptorand.aliasesAfter (pre ++ [node]) =
      (cryptorand.visit (cryptorand.aliasesAfter pre) node).1 := by
  simp [cryptorand.aliasesAfter, List.foldl_append]

/-- The current file after one more node. -/
theorem currentFile_concat (pre : List Node) (node : Node) :
    cryptorand.currentFile (pre ++ [node]) =
      (match node with
       | Node.File => []
       | _ => cryptorand.currentFile pre ++ [node]) := by
  simp [cryptorand.currentFile, List.foldl_append]

/-- Every entry of the map comes from an import spec of the current file that
the analyzer collects under that name. -/
theorem import_of_mem_aliasesAfter (pre : List Node) (pkg path : String)
    (h : (pkg, path) ∈ cryptorand.aliasesAfter pre) :
    ∃ Name, Node.ImportSpec Name path ∈ cryptorand.currentFile pre ∧
      cryptorand.collected path = true ∧ cryptorand.localName Name = pkg := by
  induction pre using List.reverseRecOn generalizing pkg path with
  | nil => simp [cryptorand.aliasesAfter] at h
  | append_singleton pre node ih =>
    rw [aliasesAfter_concat] at h
    rw [currentFile_concat]
    cases node with
    | File => simp [cryptorand.visit] at h
    | CallExpr Fun =>
      obtain ⟨Name, hmem, hc, hn⟩ := ih pkg path h
      exact ⟨Name, List.mem_append_left _ hmem, hc, hn⟩
    | BinaryExpr X OpPos Op Y =>
      obtain ⟨Name, hmem, hc, hn⟩ := ih pkg path h
      exact ⟨Name, List.mem_append_left _ hmem, hc, hn⟩
    | ImportSpec Name PathValue =>
      by_cases hcol : cryptorand.collected PathValue = true
      · have hset : (pkg, path) ∈ cryptorand.setAlias (cryptorand.aliasesAfter pre)
            (cryptorand.localName Name) PathValue := by
          cases Name <;> simpa [cryptorand.visit, hcol, cryptorand.localName] using h
        rw [mem_setAlias] at hset
        rcases hset with ⟨h1, h2⟩ | ⟨_, h2⟩
        · subst h1 h2
          exact ⟨Name, List.mem_append_right _ (List.mem_singleton.mpr rfl), hcol, rfl⟩
        · obtain ⟨Name2, hmem, hc, hn⟩ := ih pkg path h2
          exact ⟨Name2, List.mem_append_left _ hmem, hc, hn⟩
      · have hold : (pkg, path) ∈ cryptorand.aliasesAfter pre := by
          simpa [cryptorand.visit, hcol] using h
        obtain ⟨Name2, hmem, hc, hn⟩ := ih pkg path hold
        exact ⟨Name2, List.mem_append_left _ hmem, hc, hn⟩

/-- Every import spec of the current file that the analyzer collects has its
name in the map. -/
theorem mem_aliasesAfter_of_import (pre : List Node) (pkg : String)
    (h : cryptorand.importsCollected (cryptorand.currentFile pre) pkg) :
    ∃ path, (pkg, path) ∈ cryptorand.aliasesAfter pre := by
  induction pre using List.reverseRecOn with
  | nil =>
    obtain ⟨Name, PathValue, hmem, _, _⟩ := h
    simp [cryptorand.currentFile] at hmem
  | append_singleton pre node ih =>
    obtain ⟨Name, PathValue, hmem, hc, hn⟩ := h
    rw [currentFile_concat] at hmem
    rw [aliasesAfter_concat]
    cases node with
    | File => simp at hmem
    | CallExpr Fun =>
      have hmem2 : Node.ImportSpec Name PathValue ∈ cryptorand.currentFile pre := by
        simpa using hmem
      exact ih ⟨Name, PathValue, hmem2, hc, hn⟩
    | BinaryExpr X OpPos Op Y =>
      have hmem2 : Node.ImportSpec Name PathValue ∈ cryptorand.currentFile pre := by
        simpa using hmem
      exact ih ⟨Name, PathValue, hmem2, hc, hn⟩
    | ImportSpec Name2 PathValue2 =>
      have hcases : Node.ImportSpec Name PathValue ∈ cryptorand.currentFile pre ∨
          (Name = Name2 ∧ PathValue = PathValue2) := by
        simpa using hmem
      by_cases hcol : cryptorand.collected PathValue2 = true
      · have hvisit : (cryptorand.visit (cryptorand.aliasesAfter pre)
            (Node.ImportSpec Name2 PathValue2)).1 =
            cryptorand.setAlias (cryptorand.aliasesAfter pre)
              (cryptorand.localName Name2) PathValue2 := by
          cases Name2 <;> simp [cryptorand.visit, hcol, cryptorand.localName]
        rw [hvisit]
        by_cases hk : pkg = cryptorand.localName Name2
        · exact ⟨PathValue2, (mem_setAlias _ _ _ _ _).mpr (Or.inl ⟨hk, rfl⟩)⟩
        · rcases hcases with hold | ⟨h1, _⟩
          · obtain ⟨path, hp⟩ := ih ⟨Name, PathValue, hold, hc, hn⟩
            exact ⟨path, (mem_setAlias _ _ _ _ _).mpr (Or.inr ⟨hk, hp⟩)⟩
          · subst h1
            exact absurd hn.symm hk
      · have hvisit : (cryptorand.visit (cryptorand.aliasesAfter pre)
            (Node.ImportSpec Name2 PathValue2)).1 = cryptorand.aliasesAfter pre := by
          simp [cryptorand.visit, hcol]
        rw [hvisit]
        rcases hcases with hold | ⟨_, h2⟩
        · exact ih ⟨Name, PathValue, hold, hc, hn⟩
        · subst h2
          exact absurd hc hcol

/-- The reports of a sequence of nodes, split at any place. -/
theorem runFrom_append (aliases : cryptorand.Aliases) (l1 l2 : List Node) :
    cryptorand.runFrom aliases (l1 ++ l2) =
      cryptorand.runFrom aliases l1 ++
        cryptorand.runFrom
          (l1.foldl (fun aliases node => (cryptorand.visit aliases node).1) aliases) l2 := by
  induction l1 generalizing aliases with
  | nil => simp [cryptorand.runFrom]
  | cons node rest ih =>
    show (cryptorand.visit aliases node).2 ++
        cryptorand.runFrom (cryptorand.visit aliases node).1 (rest ++ l2) = _
    rw [ih]
    simp only [cryptorand.runFrom, List.foldl_cons, List.append_assoc]

/-- The reports of a run, split at one node: those before it, those made on it
and those after it. -/
theorem run_split (pre post : List Node) (node : Node) :
    cryptorand.run (pre ++ node :: post) =
      cryptorand.run pre ++ ((cryptorand.visit (cryptorand.aliasesAfter pre) node).2 ++
        cryptorand.runFrom (cryptorand.visit (cryptorand.aliasesAfter pre) node).1 post) := by
  simp only [cryptorand.run, runFrom_append, cryptorand.runFrom, cryptorand.aliasesAfter]

/-- Every report of a traversal is made on one of its nodes. -/
theorem mem_runFrom (aliases : cryptorand.Aliases) (nodes : List Node) (d : Diagnostic)
    (h : d ∈ cryptorand.runFrom aliases nodes) :
    ∃ pre node post, nodes = pre ++ node :: post ∧
      d ∈ (cryptorand.visit
        (pre.foldl (fun aliases node => (cryptorand.visit aliases node).1) aliases) node).2 := by
  induction nodes generalizing aliases with
  | nil => simp [cryptorand.runFrom] at h
  | cons node rest ih =>
    simp only [cryptorand.runFrom, List.mem_append] at h
    rcases h with h | h
    · exact ⟨[], node, rest, rfl, h⟩
    · obtain ⟨pre, n, post, hsplit, hd⟩ := ih _ h
      exact ⟨node :: pre, n, post, by rw [hsplit]; rfl, hd⟩

/-- Only a call expression is reported. -/
theorem visit_reports_call (aliases : cryptorand.Aliases) (node : Node) (d : Diagnostic)
    (h : d ∈ (cryptorand.visit aliases node).2) :
    ∃ Fun, node = Node.CallExpr Fun ∧ d ∈ cryptorand.callReports aliases Fun := by
  cases node with
  | File => simp [cryptorand.visit] at h
  | CallExpr Fun => exact ⟨Fun, rfl, h⟩
  | BinaryExpr X OpPos Op Y => simp [cryptorand.visit] at h
  | ImportSpec Name PathValue =>
    by_cases hcol : cryptorand.collected PathValue = true
    · cases Name <;> simp [cryptorand.visit, hcol] at h
    · simp [cryptorand.visit, hcol] at h

/-- A path containing `/prysm/shared/rand` is never collected. -/
theorem not_collected_of_shared (path : String)
    (h : cryptorand.Contains path "/prysm/shared/rand" = true) :
    cryptorand.collected path = false := by
  simp [cryptorand.collected, h]

/-- A call `pkg.fn` of a disallowed function is reported exactly when the
current file has an import spec the analyzer collects under the name `pkg`. -/
theorem callReports_ne_nil_iff (pre : List Node) (p : Nat) (pkg fn : String)
    (hfn : fn ∈ cryptorand.disallowedFns) :
    (∃ path, ({ Pos := p, Message := cryptorand.message pkg fn path } : Diagnostic) ∈
        cryptorand.callReports (cryptorand.aliasesAfter pre)
          (Expr.SelectorExpr (Expr.Ident p pkg) fn)) ↔
      cryptorand.importsCollected (cryptorand.currentFile pre) pkg := by
  constructor
  · rintro ⟨path, hd⟩
    obtain ⟨pkg2, path2, fn2, hmem, _, hdot, _⟩ := (mem_callReports _ _ _).mp hd
    obtain ⟨q, hq⟩ := (isPkgDot_iff _ _ _).mp hdot
    simp only [Expr.SelectorExpr.injEq, Expr.Ident.injEq] at hq
    obtain ⟨⟨_, hpkg⟩, _⟩ := hq
    subst hpkg
    obtain ⟨Name, hin, hc, hn⟩ := import_of_mem_aliasesAfter pre pkg path2 hmem
    exact ⟨Name, path2, hin, hc, hn⟩
  · intro h
    obtain ⟨path, hmem⟩ := mem_aliasesAfter_of_import pre pkg h
    refine ⟨path, (mem_callReports _ _ _).mpr ⟨pkg, path, fn, hmem, hfn, ?_, rfl⟩⟩
    exact (isPkgDot_iff _ _ _).mpr ⟨p, rfl⟩

/-- What the analyzer does on imports written as interpreted string literals: a
call `pkg.fn(...)` with `fn` in the disallowed list is reported when the current
file has an import spec named `pkg` whose `Path.Value` is `"math/rand"` in
double quotes, and no call is reported when the import specs named `pkg`, among
those whose `Path.Value` ends in `/rand"`, have a path containing
`/prysm/shared/rand`.  The reports of the call are those of the run between the
reports before it and after it. -/
theorem cryptorand_reports_math_rand (pre post : List Node) (p : Nat) (pkg fn : String)
    (hfn : fn ∈ cryptorand.disallowedFns) :
    cryptorand.run (pre ++ Node.CallExpr (Expr.SelectorExpr (Expr.Ident p pkg) fn) :: post) =
      cryptorand.run pre ++
        (cryptorand.callReports (cryptorand.aliasesAfter pre)
            (Expr.SelectorExpr (Expr.Ident p pkg) fn) ++
          cryptorand.runFrom (cryptorand.aliasesAfter pre) post) ∧
    ((∃ Name, Node.ImportSpec Name "\"math/rand\"" ∈ cryptorand.currentFile pre ∧
        cryptorand.localName Name = pkg) →
      ∃ path, ({ Pos := p, Message := cryptorand.message pkg fn path } : Diagnostic) ∈
        cryptorand.callReports (cryptorand.aliasesAfter pre)
          (Expr.SelectorExpr (Expr.Ident p pkg) fn)) ∧
    ((∀ Name PathValue, Node.ImportSpec Name PathValue ∈ cryptorand.currentFile pre →
        cryptorand.localName Name = pkg →
        cryptorand.HasSuffix PathValue "/rand\"" = true →
        cryptorand.Contains PathValue "/prysm/shared/rand" = true) →
      cryptorand.callReports (cryptorand.aliasesAfter pre)
        (Expr.SelectorExpr (Expr.Ident p pkg) fn) = []) := by
  refine ⟨?_, ?_, ?_⟩
  · rw [run_split]
    rfl
  · rintro ⟨Name, hin, hn⟩
    exact (callReports_ne_nil_iff pre p pkg fn hfn).mpr ⟨Name, _, hin, by decide, hn⟩
  · intro hshared
    rw [List.eq_nil_iff_forall_not_mem]
    intro d hd
    obtain ⟨pkg2, path2, fn2, hmem, _, hdot, _⟩ := (mem_callReports _ _ _).mp hd
    obtain ⟨q, hq⟩ := (isPkgDot_iff _ _ _).mp hdot
    simp only [Expr.SelectorExpr.injEq, Expr.Ident.injEq] at hq
    obtain ⟨⟨_, hpkg⟩, _⟩ := hq
    subst hpkg
    obtain ⟨Name, hin, hc, hn⟩ := import_of_mem_aliasesAfter pre pkg path2 hmem
    have hc2 := hc
    simp only [cryptorand.collected, Bool.and_eq_true, Bool.not_eq_true_eq_eq_false] at hc2
    have hcontains := hshared Name path2 hin hn hc2.1
    rw [hc2.2] at hcontains
    exact absurd hcontains (by decide)

/-- An instance: after `import mathRand "math/rand"` the call
`mathRand.Intn(...)` is reported. -/
theorem cryptorand_reports_math_rand_witness :
    "Intn" ∈ cryptorand.disallowedFns ∧
    ∃ path, ({ Pos := 40, Message := cryptorand.message "mathRand" "Intn" path } : Diagnostic) ∈
      cryptorand.callReports
        (cryptorand.aliasesAfter [Node.File, Node.ImportSpec (some "mathRand") "\"math/rand\""])
        (Expr.SelectorExpr (Expr.Ident 40 "mathRand") "Intn") :=
  ⟨by decide,
   (cryptorand_reports_math_rand [Node.File, Node.ImportSpec (some "mathRand") "\"math/rand\""]
      [] 40 "mathRand" "Intn" (by decide)).2.1 ⟨some "mathRand", by decide, rfl⟩⟩

/-- C12 fails on the code at two inputs.  In a file that imports
`"crypto/rand"` the call `rand.Read(...)` is reported as weak crypto, although
the analyzer is documented to enforce crypto/rand instead of math/rand.  In a
file that imports math/rand by a raw string literal, whose `Path.Value` stands
in backquotes, the import is not collected and the call `rand.Intn(...)` is not
reported. -/
theorem cryptorand_reports_crypto_rand :
    "Read" ∈ cryptorand.disallowedFns ∧
    cryptorand.run [Node.File, Node.ImportSpec none "\"crypto/rand\"",
        Node.CallExpr (Expr.SelectorExpr (Expr.Ident 40 "rand") "Read")]
      = [{ Pos := 40, Message :=
            "crypto-secure RNGs are required, use CSPRNG or PRNG defined in github.com/prysmaticlabs/prysm/shared/rand: rand.Read() (from \"crypto/rand\")" }] ∧
    "Intn" ∈ cryptorand.disallowedFns ∧
    cryptorand.collected "`math/rand`" = false ∧
    cryptorand.run [Node.File, Node.ImportSpec none "`math/rand`",
        Node.CallExpr (Expr.SelectorExpr (Expr.Ident 40 "rand") "Intn")] = [] := by
  decide

/-- C13: import aliases are tracked per file: every report of a run is made on
a call `pkg.fn(...)` of a disallowed function, and the nodes since the most
recent `*ast.File` node before the call hold an import spec of a collected rand
path whose local name is `pkg` (the explicit alias, or `rand` when there is
none); the reports from a `*ast.File` node on do not depend on the nodes of the
files before it. -/
theorem cryptorand_aliases_per_file (nodes : List Node) :
    (∀ d, d ∈ cryptorand.run nodes →
      ∃ pre post p pkg fn path Name,
        nodes = pre ++ Node.CallExpr (Expr.SelectorExpr (Expr.Ident p pkg) fn) :: post ∧
        d = { Pos := p, Message := cryptorand.message pkg fn path } ∧
        fn ∈ cryptorand.disallowedFns ∧
        Node.ImportSpec Name path ∈ cryptorand.currentFile pre ∧
        cryptorand.collected path = true ∧ cryptorand.localName Name = pkg) ∧
    (∀ earlier later, nodes = earlier ++ Node.File :: later →
      cryptorand.run nodes = cryptorand.run earlier ++ cryptorand.run (Node.File :: later)) := by
  constructor
  · intro d hd
    obtain ⟨pre, node, post, hsplit, hvisit⟩ := mem_runFrom [] nodes d hd
    obtain ⟨Fun, hnode, hcall⟩ := visit_reports_call _ node d hvisit
    obtain ⟨pkg, path, fn, hmem, hfn, hdot, hdiag⟩ := (mem_callReports _ _ _).mp hcall
    obtain ⟨p, hp⟩ := (isPkgDot_iff _ _ _).mp hdot
    obtain ⟨Name, hin, hc, hn⟩ := import_of_mem_aliasesAfter pre pkg path hmem
    subst hnode hp
    exact ⟨pre, post, p, pkg, fn, path, Name, hsplit, hdiag, hfn, hin, hc, hn⟩
  · intro earlier later hsplit
    rw [hsplit, run_split]
    rfl

/-- Witness of C13: an import of `"math/rand"` in the first file causes no
report on the call `rand.Intn(...)` of the second file. -/
theorem cryptorand_aliases_per_file_witness :
    cryptorand.run [Node.File, Node.ImportSpec none "\"math/rand\"", Node.File,
        Node.CallExpr (Expr.SelectorExpr (Expr.Ident 40 "rand") "Intn")] =
      cryptorand.run [Node.File, Node.ImportSpec none "\"math/rand\""] ++
        cryptorand.run [Node.File,
          Node.CallExpr (Expr.SelectorExpr (Expr.Ident 40 "rand") "Intn")] ∧
    cryptorand.run [Node.File,
        Node.CallExpr (Expr.SelectorExpr (Expr.Ident 40 "rand") "Intn")] = [] :=
  ⟨(cryptorand_aliases_per_file _).2 [Node.File, Node.ImportSpec none "\"math/rand\""]
      [Node.CallExpr (Expr.SelectorExpr (Expr.Ident 40 "rand") "Intn")] rfl,
   by decide⟩

end Prysm
